import Mathlib

/-!
Shallow embedding of the Clockify report converter
(`clockify_report_converter.py` / `clockify_app.py`; the two files contain
the same core functions line for line).

Modelling conventions:
 * Python `str` is Lean `String`; character-level work uses `String.data`.
 * Python `float` arithmetic is idealised as exact rational arithmetic (`ℚ`).
 * A pandas cell that may be `NaN`/`None` is an `Option`.
 * `str.split(sep)` for a one-character separator is `splitOnChar`.
 * `int(...)` parsing is `parsePyInt` (optional surrounding whitespace,
   optional sign, decimal digits).
 * Python 3 `round` (banker's rounding, half to even) is `pyRound`.
 * Python `//` and `%` on integers are `Int.fdiv` / `Int.fmod`
   (floor division, remainder with the divisor's sign), exactly Python's.
-/

/-- The decimal digit characters used by Python's `d` format. -/
def digitChar (n : ℕ) : Char :=
  match n with
  | 0 => '0' | 1 => '1' | 2 => '2' | 3 => '3' | 4 => '4'
  | 5 => '5' | 6 => '6' | 7 => '7' | 8 => '8' | 9 => '9'
  | _ => '*'

/-- Fuel-driven base-10 digit expansion (most significant digit first). -/
def natDigitsAux : ℕ → ℕ → List Char
  | 0, _ => []
  | fuel + 1, n =>
    if n < 10 then [digitChar n]
    else natDigitsAux fuel (n / 10) ++ [digitChar (n % 10)]

/-- Decimal rendering of a natural number, as Python's `d` format produces. -/
def natDigits (n : ℕ) : List Char := natDigitsAux (n + 1) n

/-- Decimal rendering of an integer (sign followed by digits). -/
def intDigits (n : ℤ) : List Char :=
  if n < 0 then '-' :: natDigits n.natAbs else natDigits n.toNat

/-- Whitespace as stripped by Python's `int(...)` and `str.strip()`. -/
def isPySpace (c : Char) : Bool := c.isWhitespace

/-- Remove leading and trailing whitespace (Python `str.strip()`). -/
def trimChars (l : List Char) : List Char :=
  ((l.dropWhile isPySpace).reverse.dropWhile isPySpace).reverse

/-- Numeric value of a decimal digit character. -/
def digitVal (c : Char) : ℕ := c.toNat - 48

/-- Parse a nonempty all-digit string as a natural number. -/
def parseDigits (l : List Char) : Option ℕ :=
  if l = [] then none
  else if l.all Char.isDigit then
    some (l.foldl (fun a c => 10 * a + digitVal c) 0)
  else none

/-- Sign-and-digits stage of Python `int(text)` parsing (after stripping). -/
def parsePyIntCore : List Char → Option ℤ
  | [] => none
  | c :: rest =>
    if c = '-' then (parseDigits rest).map (fun n => -(n : ℤ))
    else if c = '+' then (parseDigits rest).map (fun n => (n : ℤ))
    else (parseDigits (c :: rest)).map (fun n => (n : ℤ))

/-- Python `int(text)`: optional surrounding whitespace, optional single
sign, then decimal digits; anything else raises `ValueError` (here `none`). -/
def parsePyInt (l : List Char) : Option ℤ := parsePyIntCore (trimChars l)

/-- Python `str.split(sep)` for a one-character separator: `n` separators
produce `n + 1` (possibly empty) fields; the empty string gives `[[]]`. -/
def splitOnChar (sep : Char) : List Char → List (List Char)
  | [] => [[]]
  | c :: cs =>
    if c = sep then [] :: splitOnChar sep cs
    else
      match splitOnChar sep cs with
      | [] => [[c]]
      | p :: ps => (c :: p) :: ps

/-- Python 3 `round` on an exact rational: nearest integer, ties to even. -/
def pyRound (q : ℚ) : ℤ :=
  let f := ⌊q⌋
  let r := q - f
  if r < 1/2 then f
  else if 1/2 < r then f + 1
  else if f % 2 = 0 then f else f + 1

/-- Python's `f"{n:02d}"` for a natural number: pad to two digits. -/
def pad2 (n : ℕ) : List Char :=
  if n < 10 then '0' :: natDigits n else natDigits n

/-- Python's `f"{n:02d}"` on an arbitrary integer. -/
def fmt02 (n : ℤ) : List Char :=
  if n < 0 then '-' :: natDigits n.natAbs else pad2 n.toNat

/-- `decimal_to_time_str` (converter lines 77-83, app lines 83-89):
convert decimal hours to `HH:MM:SS`. -/
def decimal_to_time_str (decimal_hours : ℚ) : String :=
  let total_seconds : ℤ := pyRound (decimal_hours * 3600)
  let hours : ℤ := total_seconds.fdiv 3600
  let minutes : ℤ := (total_seconds.fmod 3600).fdiv 60
  let seconds : ℤ := total_seconds.fmod 60
  (fmt02 hours ++ ':' :: fmt02 minutes ++ ':' :: fmt02 seconds).asString

/-- The `len(parts)` dispatch of `time_str_to_decimal` (converter lines
95-113): three fields give `hours + minutes/60 + seconds/3600`, two give
`hours + minutes/60`; a failing `int(...)` (the `except ValueError`) or any
other field count falls back to `0.0`. -/
def decodeParts : List (List Char) → ℚ
  | [p0, p1, p2] =>
    ((parsePyInt p0).bind (fun hours => (parsePyInt p1).bind (fun minutes =>
      (parsePyInt p2).map (fun seconds =>
        (hours : ℚ) + (minutes : ℚ) / 60 + (seconds : ℚ) / 3600)))).getD 0
  | [p0, p1] =>
    ((parsePyInt p0).bind (fun hours => (parsePyInt p1).map (fun minutes =>
      (hours : ℚ) + (minutes : ℚ) / 60))).getD 0
  | _ => 0

/-- `time_str_to_decimal` (converter lines 86-113, app lines 92-119):
convert an `HH:MM:SS` (or `H:MM`) string to decimal hours, with the silent
`0.0` fallback.  The argument is `none` when the cell is `NaN`/`None`
(`pd.isna`); the empty string is Python-falsy and also yields `0.0`. -/
def time_str_to_decimal (time_str : Option String) : ℚ :=
  match time_str with
  | none => 0
  | some s =>
    if s = "" then 0
    else decodeParts (splitOnChar ':' s.data)

/-- Python `str.strip()` on a `String`. -/
def pyStrip (s : String) : String := (trimChars s.data).asString

/-- `str(tags).split(',')[0].strip()` (converter line 357, app line 337):
the first comma-separated tag, trimmed. -/
def firstTag (s : String) : String :=
  pyStrip ((splitOnChar ',' s.data).headI.asString)

/-- One row of the Clockify detailed export (the fixed column contract).
`none` models a `NaN`/missing cell. -/
structure Entry where
  project : String
  client : Option String
  description : String
  user : String
  tags : Option String
  startDate : Option String
  startTime : Option String
  endDate : Option String
  endTime : Option String
  duration : Option String
deriving DecidableEq

/-- One summary dict produced by `build_summary_from_detailed`:
keys `Project`, `Description`, `Time (h)`, `Time (decimal)`. -/
structure SummaryRow where
  project : Option String
  description : Option String
  timeH : String
  timeDecimal : ℚ
deriving DecidableEq

/-- `pandas.Series.unique`: distinct values, first-seen order
(accumulator holds the values already seen). -/
def uniqueAux [DecidableEq α] : List α → List α → List α
  | [], _ => []
  | x :: xs, seen =>
    if x ∈ seen then uniqueAux xs seen else x :: uniqueAux xs (x :: seen)

/-- `pandas.Series.unique`: distinct values in first-seen order. -/
def uniqueFirstSeen [DecidableEq α] (l : List α) : List α := uniqueAux l []

/-- Body of the inner loop of `build_summary_from_detailed`
(converter lines 152-165): the `DescriptionTotal` row for one description
within one project's entries. -/
def descBlock (projectData : List Entry) (d : String) : SummaryRow :=
  let descData := projectData.filter (fun e => e.description = d)
  let desc_total_decimal :=
    (descData.map (fun e => time_str_to_decimal e.duration)).sum
  ⟨none, some d, decimal_to_time_str desc_total_decimal, desc_total_decimal⟩

/-- The `ProjectTotal` row appended by the outer loop of
`build_summary_from_detailed` (converter lines 132-149): label from the
project and the first matching entry's client, total decoded from
`Duration (h)` at full precision. -/
def projHeadRow (df : List Entry) (p : String) : SummaryRow :=
  let projectData := df.filter (fun e => e.project = p)
  let client : Option String := projectData.head?.bind (fun e => e.client)
  let project_name := match client with
    | some c => p ++ " - " ++ c
    | none => p
  let project_total_decimal :=
    (projectData.map (fun e => time_str_to_decimal e.duration)).sum
  ⟨some project_name, none, decimal_to_time_str project_total_decimal,
      project_total_decimal⟩

/-- Body of the outer loop of `build_summary_from_detailed`
(converter lines 132-165): the `ProjectTotal` row for one project followed
by its `DescriptionTotal` rows. -/
def projBlock (df : List Entry) (p : String) : List SummaryRow :=
  projHeadRow df p ::
    (uniqueFirstSeen ((df.filter (fun e => e.project = p)).map
      (fun e => e.description))).map
      (descBlock (df.filter (fun e => e.project = p)))

/-- `build_summary_from_detailed` (converter lines 116-167, app 122-173)
with the column lookups already validated: the ordered summary rows. -/
def summaryRows (df : List Entry) : List SummaryRow :=
  ((uniqueFirstSeen (df.map (fun e => e.project))).map (projBlock df)).flatten

/-- A pandas dataframe: the set of column labels present, plus the rows.
Row fields are meaningful only for labels in `cols`; a lookup of a label
not in `cols` raises `KeyError label`. -/
structure DataFrame where
  cols : List String
  rows : List Entry
deriving DecidableEq

/-- `build_summary_from_detailed` as called on a raw dataframe: each pandas
column access (`df['Project']` line 132/133, `project_data['Client']` line
134, `project_data['Duration (h)']` line 139, `project_data['Description']`
line 152, in source order inside each loop iteration) raises `KeyError`
with the column name when the column is absent.  The per-iteration lookups
are modelled as presence guards in the source's access order; `Except`
propagates the first failure, as a Python exception does. -/
def build_summary_from_detailed (df : DataFrame) :
    Except String (List SummaryRow) :=
  if "Project" ∈ df.cols then
    ((uniqueFirstSeen (df.rows.map (fun e => e.project))).mapM (fun p =>
      if "Client" ∈ df.cols then
        if "Duration (h)" ∈ df.cols then
          if "Description" ∈ df.cols then
            Except.ok (projBlock df.rows p)
          else Except.error "Description"
        else Except.error "Duration (h)"
      else Except.error "Client")).map List.flatten
  else Except.error "Project"

/-- `total_time_decimal` (converter lines 210-214, app 211-215): the grand
total summed from the project-level rows only. -/
def total_time_decimal (summary_data : List SummaryRow) : ℚ :=
  ((summary_data.filter (fun row => row.project.isSome)).map
    (fun row => row.timeDecimal)).sum

/-- A spreadsheet formula string, abstracted by shape:
`=<col><row>*<lit>`, `=<c1><r1>*<c2><r2>` and `=SUM(<col><r1>:<col><r2>)`. -/
inductive Formula
  | cellTimesLit (col : Char) (row : ℕ) (lit : ℚ)
  | cellTimesCell (c1 : Char) (r1 : ℕ) (c2 : Char) (r2 : ℕ)
  | sumRange (col : Char) (r1 r2 : ℕ)
deriving DecidableEq

/-- A value written into a worksheet cell.  `raw` is a value copied from
the input dataframe unchanged in content (for the date cells the code may
re-parse the string into a `datetime`; that changes representation only,
and is not modelled). -/
inductive CellVal
  | str (s : String)
  | num (q : ℚ)
  | raw (v : Option String)
  | formula (f : Formula)
deriving DecidableEq

/-- One worksheet cell that receives a value (row and column are 1-based,
as in openpyxl).  Styling-only writes (fills, fonts, widths, number
formats) carry no data and are not modelled. -/
structure Cell where
  row : ℕ
  col : ℕ
  val : CellVal
deriving DecidableEq

/-- The `Total` row label (converter lines 262-263). -/
def totalLabel (date_range : Option (String × String)) : String :=
  match date_range with
  | some (s, e) => "Total (" ++ s ++ " - " ++ e ++ ")"
  | none => "Total"

/-- The data-row loop of `create_summary_sheet` (converter lines 217-259):
a project row writes columns 1, 3, 4 and 5; a description row writes
columns 2, 3, 4 and 5; a row with neither label writes nothing and does
not advance `current_row`. -/
def summaryDataCells (rate : ℚ) : ℕ → List SummaryRow → List Cell
  | _, [] => []
  | r, row :: rest =>
    match row.project, row.description with
    | some p, _ =>
      Cell.mk r 1 (CellVal.str p) ::
      Cell.mk r 3 (CellVal.str row.timeH) ::
      Cell.mk r 4 (CellVal.num row.timeDecimal) ::
      Cell.mk r 5 (CellVal.formula (Formula.cellTimesLit 'D' r rate)) ::
      summaryDataCells rate (r + 1) rest
    | none, some d =>
      Cell.mk r 2 (CellVal.str d) ::
      Cell.mk r 3 (CellVal.str row.timeH) ::
      Cell.mk r 4 (CellVal.num row.timeDecimal) ::
      Cell.mk r 5 (CellVal.formula (Formula.cellTimesLit 'D' r rate)) ::
      summaryDataCells rate (r + 1) rest
    | none, none => summaryDataCells rate r rest

/-- The final value of `current_row` after the data loop: one row per
summary entry that carries a project or a description label. -/
def endRow : ℕ → List SummaryRow → ℕ
  | r, [] => r
  | r, row :: rest =>
    match row.project, row.description with
    | some _, _ => endRow (r + 1) rest
    | none, some _ => endRow (r + 1) rest
    | none, none => endRow r rest

/-- `create_summary_sheet` (converter lines 170-287, app 176-279), cell
values only: title, header labels, the data rows starting at row 5, and
the trailing `Total` row. -/
def create_summary_sheet (summary_data : List SummaryRow)
    (date_range : Option (String × String)) (rate : ℚ) : List Cell :=
  let tot := total_time_decimal summary_data
  let r := endRow 5 summary_data
  Cell.mk 1 1 (CellVal.str "Summary report") ::
  Cell.mk 3 1 (CellVal.str "Project") ::
  Cell.mk 3 2 (CellVal.str "Description") ::
  Cell.mk 3 3 (CellVal.str "Time (h)") ::
  Cell.mk 3 4 (CellVal.str "Time (decimal)") ::
  Cell.mk 3 5 (CellVal.str "Amount (BRL)") ::
  (summaryDataCells rate 5 summary_data ++
    [Cell.mk r 1 (CellVal.str (totalLabel date_range)),
     Cell.mk r 3 (CellVal.str (decimal_to_time_str tot)),
     Cell.mk r 4 (CellVal.num tot),
     Cell.mk r 5 (CellVal.formula (Formula.cellTimesLit 'D' r rate))])

/-- One data row of `create_detailed_sheet` (converter lines 334-420):
columns 1-13 for one entry.  The `Tags` cell (column 5) is written only
when the field is present; the date cells (6, 8) only when present. -/
def detailedRowCells (rate : ℚ) (r : ℕ) (e : Entry) : List Cell :=
  Cell.mk r 1 (CellVal.str e.project) ::
  Cell.mk r 2 (CellVal.raw e.client) ::
  Cell.mk r 3 (CellVal.str e.description) ::
  Cell.mk r 4 (CellVal.str e.user) ::
  ((match e.tags with
    | some t => [Cell.mk r 5 (CellVal.str (firstTag t))]
    | none => []) ++
   (match e.startDate with
    | some d => [Cell.mk r 6 (CellVal.raw (some d))]
    | none => []) ++
   (Cell.mk r 7 (CellVal.raw e.startTime) ::
    (match e.endDate with
     | some d => [Cell.mk r 8 (CellVal.raw (some d))]
     | none => []) ++
    [Cell.mk r 9 (CellVal.raw e.endTime),
     Cell.mk r 10 (CellVal.raw e.duration),
     Cell.mk r 11 (CellVal.num (time_str_to_decimal e.duration)),
     Cell.mk r 12 (CellVal.num rate),
     Cell.mk r 13 (CellVal.formula (Formula.cellTimesCell 'L' r 'K' r))]))

/-- The data-row loop of `create_detailed_sheet`, starting at `data_row`. -/
def detailedDataCells (rate : ℚ) : ℕ → List Entry → List Cell
  | _, [] => []
  | r, e :: es => detailedRowCells rate r e ++ detailedDataCells rate (r + 1) es

/-- `create_detailed_sheet` (converter lines 290-443, app 282-413), cell
values only: title band, header labels, one row per entry from row 4, and
the `=SUM(M4:M<last>)` total-amount formula in M1. -/
def create_detailed_sheet (detailed_df : List Entry) (rate : ℚ) : List Cell :=
  Cell.mk 1 3 (CellVal.str "Detailed Report") ::
  Cell.mk 1 12 (CellVal.str "Total Amount:") ::
  Cell.mk 3 1 (CellVal.str "Project") ::
  Cell.mk 3 2 (CellVal.str "Client") ::
  Cell.mk 3 3 (CellVal.str "Description") ::
  Cell.mk 3 4 (CellVal.str "User") ::
  Cell.mk 3 5 (CellVal.str "Tags") ::
  Cell.mk 3 6 (CellVal.str "Start Date") ::
  Cell.mk 3 7 (CellVal.str "Start Time") ::
  Cell.mk 3 8 (CellVal.str "End Date") ::
  Cell.mk 3 9 (CellVal.str "End Time") ::
  Cell.mk 3 10 (CellVal.str "Duration (h)") ::
  Cell.mk 3 11 (CellVal.str "Duration (decimal)") ::
  Cell.mk 3 12 (CellVal.str "Billable Rate (BRL)") ::
  Cell.mk 3 13 (CellVal.str "Billable Amount (BRL)") ::
  (detailedDataCells rate 4 detailed_df ++
    [Cell.mk 1 13 (CellVal.formula
      (Formula.sumRange 'M' 4 (3 + detailed_df.length)))])

/-! ### Digit rendering and parsing lemmas -/

theorem data_asString (l : List Char) : (l.asString).data = l := rfl

theorem asString_inj {l1 l2 : List Char} (h : l1.asString = l2.asString) :
    l1 = l2 := by
  have := congrArg String.data h
  simpa [data_asString] using this

theorem natDigitsAux_congr (n : ℕ) : ∀ (f1 f2 : ℕ), n < f1 → n < f2 →
    natDigitsAux f1 n = natDigitsAux f2 n := by
  induction n using Nat.strong_induction_on with
  | _ n ih =>
    intro f1 f2 h1 h2
    match f1, f2 with
    | s1 + 1, s2 + 1 =>
      simp only [natDigitsAux]
      by_cases h : n < 10
      · simp [h]
      · simp only [if_neg h]
        have hd : n / 10 < n := Nat.div_lt_self (by omega) (by omega)
        rw [ih (n / 10) hd s1 s2 (by omega) (by omega)]

theorem natDigits_eq (n : ℕ) :
    natDigits n = if n < 10 then [digitChar n]
      else natDigits (n / 10) ++ [digitChar (n % 10)] := by
  show natDigitsAux (n + 1) n = _
  rw [natDigitsAux]
  by_cases h : n < 10
  · simp [h]
  · simp only [if_neg h]
    have hd : n / 10 < n := Nat.div_lt_self (by omega) (by omega)
    rw [natDigitsAux_congr (n / 10) n (n / 10 + 1) hd (by omega)]
    rfl

theorem digitChar_isDigit (n : ℕ) (h : n < 10) : (digitChar n).isDigit = true := by
  interval_cases n <;> decide

theorem digitVal_digitChar (n : ℕ) (h : n < 10) : digitVal (digitChar n) = n := by
  interval_cases n <;> decide

theorem natDigits_ne_nil (n : ℕ) : natDigits n ≠ [] := by
  rw [natDigits_eq]
  split <;> simp

theorem natDigits_all_digit (n : ℕ) : ∀ c ∈ natDigits n, c.isDigit = true := by
  induction n using Nat.strong_induction_on with
  | _ n ih =>
    rw [natDigits_eq]
    by_cases h : n < 10
    · simpa [h] using digitChar_isDigit n h
    · simp only [if_neg h, List.mem_append, List.mem_singleton]
      rintro c (hc | rfl)
      · exact ih (n / 10) (Nat.div_lt_self (by omega) (by omega)) c hc
      · exact digitChar_isDigit _ (Nat.mod_lt _ (by omega))

theorem natDigits_foldl (n : ℕ) :
    (natDigits n).foldl (fun a c => 10 * a + digitVal c) 0 = n := by
  induction n using Nat.strong_induction_on with
  | _ n ih =>
    rw [natDigits_eq]
    by_cases h : n < 10
    · simp [h, digitVal_digitChar n h]
    · simp only [if_neg h, List.foldl_append, List.foldl_cons, List.foldl_nil]
      rw [ih (n / 10) (Nat.div_lt_self (by omega) (by omega))]
      rw [digitVal_digitChar _ (Nat.mod_lt _ (by omega))]
      omega

theorem parseDigits_natDigits (n : ℕ) : parseDigits (natDigits n) = some n := by
  unfold parseDigits
  rw [if_neg (natDigits_ne_nil n), if_pos, natDigits_foldl]
  exact List.all_eq_true.2 (fun c hc => natDigits_all_digit n c hc)

theorem isDigit_char_ne (c : Char) (h : c.isDigit = true) :
    c ≠ '-' ∧ c ≠ '+' ∧ c ≠ ':' ∧ c ≠ ',' := by
  refine ⟨?_, ?_, ?_, ?_⟩ <;> (rintro rfl; exact absurd h (by decide))

theorem isDigit_not_space (c : Char) (h : c.isDigit = true) :
    isPySpace c = false := by
  unfold isPySpace
  cases hw : c.isWhitespace
  · rfl
  · exfalso
    simp only [Char.isWhitespace, Bool.or_eq_true, decide_eq_true_eq] at hw
    rcases hw with ((h1 | h1) | h1) | h1 <;> (subst h1; exact absurd h (by decide))

theorem dropWhile_false_all : ∀ l : List Char,
    (∀ c ∈ l, isPySpace c = false) → l.dropWhile isPySpace = l := by
  intro l h
  cases l with
  | nil => rfl
  | cons c cs =>
    rw [List.dropWhile_cons, if_neg]
    simp [h c (List.mem_cons_self c cs)]

theorem trimChars_of_no_space (l : List Char)
    (h : ∀ c ∈ l, isPySpace c = false) : trimChars l = l := by
  unfold trimChars
  rw [dropWhile_false_all l h, dropWhile_false_all l.reverse
    (fun c hc => h c (List.mem_reverse.1 hc)), List.reverse_reverse]

theorem trimChars_of_all_digit (l : List Char)
    (h : ∀ c ∈ l, c.isDigit = true) : trimChars l = l :=
  trimChars_of_no_space l (fun c hc => isDigit_not_space c (h c hc))

theorem parseDigits_cons_zero (l : List Char) (h : parseDigits l = some n) :
    parseDigits ('0' :: l) = some n := by
  unfold parseDigits at h ⊢
  by_cases h0 : l = []
  · simp [h0] at h
  · rw [if_neg h0] at h
    by_cases hall : l.all Char.isDigit
    · rw [if_pos hall] at h
      have hcond : (('0' :: l).all Char.isDigit) = true := by
        rw [List.all_cons, hall]
        decide
      rw [if_neg (by simp), if_pos hcond, List.foldl_cons]
      have h0 : (10 * 0 + digitVal '0') = 0 := by decide
      rw [h0]
      exact h
    · rw [if_neg hall] at h
      exact absurd h (by simp)

theorem parsePyInt_natDigits (n : ℕ) : parsePyInt (natDigits n) = some (n : ℤ) := by
  unfold parsePyInt
  rw [trimChars_of_all_digit _ (natDigits_all_digit n)]
  obtain ⟨c, rest, hcr⟩ : ∃ c rest, natDigits n = c :: rest := by
    cases h : natDigits n with
    | nil => exact absurd h (natDigits_ne_nil n)
    | cons c rest => exact ⟨c, rest, rfl⟩
  have hc : c.isDigit = true :=
    natDigits_all_digit n c (hcr ▸ List.mem_cons_self c rest)
  rw [hcr, parsePyIntCore, if_neg (isDigit_char_ne c hc).1,
    if_neg (isDigit_char_ne c hc).2.1, ← hcr, parseDigits_natDigits]
  rfl

theorem pad2_all_digit (n : ℕ) : ∀ c ∈ pad2 n, c.isDigit = true := by
  unfold pad2
  split
  · intro c hc
    rcases List.mem_cons.1 hc with rfl | hc
    · decide
    · exact natDigits_all_digit n c hc
  · exact natDigits_all_digit n

theorem parsePyInt_pad2 (n : ℕ) : parsePyInt (pad2 n) = some (n : ℤ) := by
  unfold pad2
  split
  · unfold parsePyInt
    have hall : ∀ c ∈ '0' :: natDigits n, c.isDigit = true := by
      intro c hc
      rcases List.mem_cons.1 hc with rfl | hc
      · decide
      · exact natDigits_all_digit n c hc
    rw [trimChars_of_all_digit _ hall, parsePyIntCore, if_neg (by decide),
      if_neg (by decide), parseDigits_cons_zero _ (parseDigits_natDigits n)]
    rfl
  · exact parsePyInt_natDigits n

theorem parsePyInt_intDigits (k : ℤ) : parsePyInt (intDigits k) = some k := by
  unfold intDigits
  split
  · next hneg =>
    unfold parsePyInt
    have hns : ∀ c ∈ '-' :: natDigits k.natAbs, isPySpace c = false := by
      intro c hc
      rcases List.mem_cons.1 hc with rfl | hc
      · decide
      · exact isDigit_not_space c (natDigits_all_digit _ c hc)
    rw [trimChars_of_no_space _ hns, parsePyIntCore, if_pos rfl,
      parseDigits_natDigits]
    show some (-(k.natAbs : ℤ)) = some k
    congr 1
    omega
  · next hpos =>
    rw [parsePyInt_natDigits]
    congr 1
    omega

/-! ### `splitOnChar` lemmas -/

theorem splitOnChar_ne_nil (sep : Char) : ∀ l : List Char,
    splitOnChar sep l ≠ [] := by
  intro l
  cases l with
  | nil => exact List.cons_ne_nil _ _
  | cons c cs =>
    rw [splitOnChar]
    split
    · simp
    · split <;> simp

theorem splitOnChar_not_mem (sep : Char) : ∀ l : List Char, sep ∉ l →
    splitOnChar sep l = [l] := by
  intro l
  induction l with
  | nil => intro _; rfl
  | cons c cs ih =>
    intro h
    have hcs : ¬(c = sep) := fun e => h (List.mem_cons.2 (Or.inl e.symm))
    rw [splitOnChar, if_neg hcs, ih (fun hm => h (List.mem_cons_of_mem c hm))]

theorem splitOnChar_append (sep : Char) (rest : List Char) : ∀ a : List Char,
    sep ∉ a → splitOnChar sep (a ++ sep :: rest) = a :: splitOnChar sep rest := by
  intro a
  induction a with
  | nil =>
    intro _
    rw [List.nil_append, splitOnChar, if_pos rfl]
  | cons c cs ih =>
    intro h
    have hcs : ¬(c = sep) := fun e => h (List.mem_cons.2 (Or.inl e.symm))
    rw [List.cons_append, splitOnChar, if_neg hcs,
      ih (fun hm => h (List.mem_cons_of_mem c hm))]

/-! ### `pyRound` lemmas -/

theorem pyRound_intCast (k : ℤ) : pyRound (k : ℚ) = k := by
  simp only [pyRound]
  norm_num

theorem pyRound_natCast (n : ℕ) : pyRound (n : ℚ) = (n : ℤ) := by
  have : ((n : ℚ)) = (((n : ℤ) : ℚ)) := by push_cast; ring
  rw [this, pyRound_intCast]

theorem pyRound_dist (q : ℚ) : |(pyRound q : ℚ) - q| ≤ 1/2 := by
  simp only [pyRound]
  have h0 : (0 : ℚ) ≤ q - ⌊q⌋ := sub_nonneg.2 (Int.floor_le q)
  have h1 : q - ⌊q⌋ < 1 := by
    have := Int.lt_floor_add_one q
    linarith
  split_ifs with hr1 hr2 hf <;> rw [abs_sub_le_iff] <;> constructor <;>
    push_cast <;> linarith

theorem pyRound_nonneg (q : ℚ) (h : 0 ≤ q) : 0 ≤ pyRound q := by
  simp only [pyRound]
  have h0 : 0 ≤ ⌊q⌋ := Int.floor_nonneg.2 h
  split_ifs <;> omega

/-! ### Structure of `decimal_to_time_str` on non-negative input -/

theorem fdiv_coe (m n : ℕ) : ((m : ℤ)).fdiv (n : ℤ) = ((m / n : ℕ) : ℤ) := by
  cases m with
  | zero => rw [Nat.zero_div]; rfl
  | succ k => rfl

theorem fmod_coe (m n : ℕ) : ((m : ℤ)).fmod (n : ℤ) = ((m % n : ℕ) : ℤ) := by
  cases m with
  | zero => rw [Nat.zero_mod]; rfl
  | succ k => rfl

theorem fmt02_coe (m : ℕ) : fmt02 (m : ℤ) = pad2 m := by
  unfold fmt02
  rw [if_neg (by omega)]
  simp

/-- On non-negative input, `decimal_to_time_str` rounds once to a natural
number of seconds and then decomposes it by division and modulo. -/
theorem decimal_to_time_str_eq (q : ℚ) (h : 0 ≤ q) :
    decimal_to_time_str q =
      (pad2 ((pyRound (q * 3600)).toNat / 3600) ++ ':' ::
       pad2 ((pyRound (q * 3600)).toNat % 3600 / 60) ++ ':' ::
       pad2 ((pyRound (q * 3600)).toNat % 60)).asString := by
  simp only [decimal_to_time_str]
  have hT : 0 ≤ pyRound (q * 3600) :=
    pyRound_nonneg _ (by positivity)
  obtain ⟨t, ht⟩ : ∃ t : ℕ, pyRound (q * 3600) = (t : ℤ) :=
    ⟨(pyRound (q * 3600)).toNat, (Int.toNat_of_nonneg hT).symm⟩
  rw [ht]
  have h3600 : ((3600 : ℤ)) = ((3600 : ℕ) : ℤ) := rfl
  have h60 : ((60 : ℤ)) = ((60 : ℕ) : ℤ) := rfl
  rw [h3600, h60, fdiv_coe, fmod_coe, fdiv_coe, fmod_coe, fmt02_coe,
    fmt02_coe, fmt02_coe]
  simp [ht]

/-! ### Decode lemmas -/

theorem time_str_to_decimal_some (s : String) (h : ¬(s = "")) :
    time_str_to_decimal (some s) = decodeParts (splitOnChar ':' s.data) := by
  simp only [time_str_to_decimal, if_neg h]

theorem asString_ne_empty (l : List Char) (h : l ≠ []) :
    ¬(l.asString = "") := by
  intro e
  exact h (by simpa [data_asString] using congrArg String.data e)

theorem decode_three (d1 d2 d3 : List Char) (h1 : ':' ∉ d1) (h2 : ':' ∉ d2)
    (h3 : ':' ∉ d3) (a b c : ℤ) (p1 : parsePyInt d1 = some a)
    (p2 : parsePyInt d2 = some b) (p3 : parsePyInt d3 = some c) :
    time_str_to_decimal (some ((d1 ++ ':' :: d2 ++ ':' :: d3).asString))
      = (a : ℚ) + (b : ℚ) / 60 + (c : ℚ) / 3600 := by
  have hne : (d1 ++ ':' :: d2 ++ ':' :: d3) ≠ [] := by cases d1 <;> simp
  rw [time_str_to_decimal_some _ (asString_ne_empty _ hne), data_asString]
  simp only [List.append_assoc, List.cons_append]
  rw [splitOnChar_append ':' _ d1 h1, splitOnChar_append ':' _ d2 h2,
    splitOnChar_not_mem ':' d3 h3]
  simp [decodeParts, p1, p2, p3]

theorem decode_two (d1 d2 : List Char) (h1 : ':' ∉ d1) (h2 : ':' ∉ d2)
    (a b : ℤ) (p1 : parsePyInt d1 = some a) (p2 : parsePyInt d2 = some b) :
    time_str_to_decimal (some ((d1 ++ ':' :: d2).asString))
      = (a : ℚ) + (b : ℚ) / 60 := by
  have hne : (d1 ++ ':' :: d2) ≠ [] := by cases d1 <;> simp
  rw [time_str_to_decimal_some _ (asString_ne_empty _ hne), data_asString]
  rw [splitOnChar_append ':' _ d1 h1, splitOnChar_not_mem ':' d2 h2]
  simp [decodeParts, p1, p2]

theorem decodeParts_other_len (ps : List (List Char)) (h2 : ps.length ≠ 2)
    (h3 : ps.length ≠ 3) : decodeParts ps = 0 := by
  match ps with
  | [] => rfl
  | [_] => rfl
  | [_, _] => exact absurd rfl h2
  | [_, _, _] => exact absurd rfl h3
  | _ :: _ :: _ :: _ :: _ => rfl

theorem decodeParts_fail3 (p0 p1 p2 : List Char)
    (h : parsePyInt p0 = none ∨ parsePyInt p1 = none ∨ parsePyInt p2 = none) :
    decodeParts [p0, p1, p2] = 0 := by
  simp only [decodeParts]
  rcases h with h | h | h
  · simp [h]
  · cases hp : parsePyInt p0 <;> simp [h, hp]
  · cases hp : parsePyInt p0 <;> cases hq : parsePyInt p1 <;> simp [h, hp, hq]

theorem decodeParts_fail2 (p0 p1 : List Char)
    (h : parsePyInt p0 = none ∨ parsePyInt p1 = none) :
    decodeParts [p0, p1] = 0 := by
  simp only [decodeParts]
  rcases h with h | h
  · simp [h]
  · cases hp : parsePyInt p0 <;> simp [h, hp]

/-- C2: `time_str_to_decimal` decodes `H:MM:SS` as
`hours + minutes/60 + seconds/3600` and `H:MM` as `hours + minutes/60`
whenever every colon-separated field parses as an integer (full precision,
no rounding), and every other input — a `None`/`NaN` cell, the empty
string, any other field count, or a field `int(...)` rejects — yields
exactly `0.0`; the function is total, so no exception escapes. -/
theorem decode_grammar_and_fallback :
    (∀ d1 d2 d3 : List Char, ':' ∉ d1 → ':' ∉ d2 → ':' ∉ d3 →
      ∀ a b c : ℤ, parsePyInt d1 = some a → parsePyInt d2 = some b →
        parsePyInt d3 = some c →
        time_str_to_decimal (some ((d1 ++ ':' :: d2 ++ ':' :: d3).asString))
          = (a : ℚ) + (b : ℚ) / 60 + (c : ℚ) / 3600)
  ∧ (∀ d1 d2 : List Char, ':' ∉ d1 → ':' ∉ d2 →
      ∀ a b : ℤ, parsePyInt d1 = some a → parsePyInt d2 = some b →
        time_str_to_decimal (some ((d1 ++ ':' :: d2).asString))
          = (a : ℚ) + (b : ℚ) / 60)
  ∧ time_str_to_decimal none = 0
  ∧ time_str_to_decimal (some "") = 0
  ∧ (∀ s : String, (splitOnChar ':' s.data).length ≠ 2 →
      (splitOnChar ':' s.data).length ≠ 3 → time_str_to_decimal (some s) = 0)
  ∧ (∀ s : String, ∀ p0 p1 p2 : List Char,
      splitOnChar ':' s.data = [p0, p1, p2] →
      parsePyInt p0 = none ∨ parsePyInt p1 = none ∨ parsePyInt p2 = none →
      time_str_to_decimal (some s) = 0)
  ∧ (∀ s : String, ∀ p0 p1 : List Char,
      splitOnChar ':' s.data = [p0, p1] →
      parsePyInt p0 = none ∨ parsePyInt p1 = none →
      time_str_to_decimal (some s) = 0)
  ∧ time_str_to_decimal (some "garbage") = 0
  ∧ time_str_to_decimal (some "1:2:3:4") = 0 := by
  refine ⟨decode_three, decode_two, rfl, rfl, ?_, ?_, ?_, ?_, ?_⟩
  · intro s h2 h3
    by_cases hs : s = ""
    · subst hs; rfl
    · rw [time_str_to_decimal_some s hs]
      exact decodeParts_other_len _ h2 h3
  · intro s p0 p1 p2 hsplit h
    by_cases hs : s = ""
    · subst hs
      rw [show splitOnChar ':' ("" : String).data = [[]] from rfl] at hsplit
      simp at hsplit
    · rw [time_str_to_decimal_some s hs, hsplit]
      exact decodeParts_fail3 p0 p1 p2 h
  · intro s p0 p1 hsplit h
    by_cases hs : s = ""
    · subst hs
      rw [show splitOnChar ':' ("" : String).data = [[]] from rfl] at hsplit
      simp at hsplit
    · rw [time_str_to_decimal_some s hs, hsplit]
      exact decodeParts_fail2 p0 p1 h
  · with_unfolding_all decide
  · with_unfolding_all decide

/-- Witness for C2 at concrete inputs: `"1:30:00"` decodes to `1.5` and
`"0:45"` decodes to `0.75` through the general theorem. -/
theorem decode_grammar_and_fallback_witness :
    (':' ∉ ['1'] ∧ ':' ∉ ['3', '0'] ∧ ':' ∉ ['0', '0'] ∧
      parsePyInt ['1'] = some 1 ∧ parsePyInt ['3', '0'] = some 30 ∧
      parsePyInt ['0', '0'] = some 0 ∧
      time_str_to_decimal
        (some ((['1'] ++ ':' :: ['3', '0'] ++ ':' :: ['0', '0']).asString))
        = (1 : ℚ) + (30 : ℚ) / 60 + (0 : ℚ) / 3600)
  ∧ (':' ∉ ['0'] ∧ ':' ∉ ['4', '5'] ∧ parsePyInt ['0'] = some 0 ∧
      parsePyInt ['4', '5'] = some 45 ∧
      time_str_to_decimal (some ((['0'] ++ ':' :: ['4', '5']).asString))
        = (0 : ℚ) + (45 : ℚ) / 60) :=
  ⟨⟨by decide, by decide, by decide,
    by with_unfolding_all decide, by with_unfolding_all decide,
    by with_unfolding_all decide,
    decode_grammar_and_fallback.1 ['1'] ['3', '0'] ['0', '0']
      (by decide) (by decide) (by decide) 1 30 0
      (by with_unfolding_all decide) (by with_unfolding_all decide)
      (by with_unfolding_all decide)⟩,
   ⟨by decide, by decide, by with_unfolding_all decide,
    by with_unfolding_all decide,
    decode_grammar_and_fallback.2.1 ['0'] ['4', '5'] (by decide) (by decide)
      0 45 (by with_unfolding_all decide) (by with_unfolding_all decide)⟩⟩

/-- C10: decoding performs no range or sign validation on the fields: every
two- or three-field string whose fields are (possibly negative or
out-of-range) rendered integers is converted arithmetically; in particular
`"0:90"` decodes to `1.5` and `"1:-30:00"` to `0.5`. -/
theorem decode_no_range_validation :
    (∀ a b c : ℤ,
      time_str_to_decimal
          (some ((intDigits a ++ ':' :: intDigits b ++ ':' ::
            intDigits c).asString))
        = (a : ℚ) + (b : ℚ) / 60 + (c : ℚ) / 3600)
  ∧ (∀ a b : ℤ,
      time_str_to_decimal (some ((intDigits a ++ ':' :: intDigits b).asString))
        = (a : ℚ) + (b : ℚ) / 60)
  ∧ time_str_to_decimal (some "0:90") = 3/2
  ∧ time_str_to_decimal (some "1:-30:00") = 1/2 := by
  have hnc : ∀ k : ℤ, ':' ∉ intDigits k := by
    intro k hk
    unfold intDigits at hk
    split at hk
    · rcases List.mem_cons.1 hk with h | h
      · exact absurd h (by decide)
      · exact absurd (natDigits_all_digit _ _ h) (by decide)
    · exact absurd (natDigits_all_digit _ _ hk) (by decide)
  refine ⟨?_, ?_, ?_, ?_⟩
  · intro a b c
    exact decode_three _ _ _ (hnc a) (hnc b) (hnc c) a b c
      (parsePyInt_intDigits a) (parsePyInt_intDigits b) (parsePyInt_intDigits c)
  · intro a b
    exact decode_two _ _ (hnc a) (hnc b) a b
      (parsePyInt_intDigits a) (parsePyInt_intDigits b)
  · with_unfolding_all decide
  · with_unfolding_all decide

theorem colon_not_mem_pad2 (n : ℕ) : ':' ∉ pad2 n :=
  fun h => absurd (pad2_all_digit n ':' h) (by decide)

/-- C3: `decimal_to_time_str` first rounds `decimal_hours * 3600` to the
nearest integer number of seconds — rounding exactly once, at the seconds
granularity — and then decomposes that integer into zero-padded hours,
minutes and seconds by integer division and modulo. -/
theorem encode_round_once_then_decompose (q : ℚ) (h : 0 ≤ q) :
    ∃ T : ℕ, |(T : ℚ) - q * 3600| ≤ 1/2 ∧
      decimal_to_time_str q =
        (pad2 (T / 3600) ++ ':' :: pad2 (T % 3600 / 60) ++ ':' ::
         pad2 (T % 60)).asString := by
  refine ⟨(pyRound (q * 3600)).toNat, ?_, decimal_to_time_str_eq q h⟩
  have h1 := pyRound_dist (q * 3600)
  have h2 : 0 ≤ pyRound (q * 3600) := pyRound_nonneg _ (by positivity)
  have h3 : (((pyRound (q * 3600)).toNat : ℕ) : ℚ)
      = ((pyRound (q * 3600) : ℤ) : ℚ) := by
    rw [← Int.cast_natCast, Int.toNat_of_nonneg h2]
  rw [h3]
  exact h1

/-- Witness for C3 at `q = 3/2`. -/
theorem encode_round_once_then_decompose_witness :
    (0 : ℚ) ≤ 3/2 ∧ ∃ T : ℕ, |(T : ℚ) - (3/2) * 3600| ≤ 1/2 ∧
      decimal_to_time_str (3/2) =
        (pad2 (T / 3600) ++ ':' :: pad2 (T % 3600 / 60) ++ ':' ::
         pad2 (T % 60)).asString :=
  ⟨by with_unfolding_all decide,
   encode_round_once_then_decompose (3/2) (by with_unfolding_all decide)⟩

/-- C9: in the encoded string the minutes and seconds fields are always in
`0..59`, while the hours field is `total_seconds // 3600` with no upper
bound; a total of 100 hours renders as `"100:00:00"` — the field widens
instead of truncating or wrapping. -/
theorem encode_minute_second_ranges :
    (∀ q : ℚ, 0 ≤ q → ∃ hh mm ss : ℕ,
      decimal_to_time_str q =
        (pad2 hh ++ ':' :: pad2 mm ++ ':' :: pad2 ss).asString ∧
      mm < 60 ∧ ss < 60 ∧ (hh : ℤ) = (pyRound (q * 3600)).fdiv 3600)
  ∧ decimal_to_time_str 100 = "100:00:00" := by
  constructor
  · intro q h
    refine ⟨(pyRound (q * 3600)).toNat / 3600,
      (pyRound (q * 3600)).toNat % 3600 / 60, (pyRound (q * 3600)).toNat % 60,
      decimal_to_time_str_eq q h, by omega, by omega, ?_⟩
    have h2 : 0 ≤ pyRound (q * 3600) := pyRound_nonneg _ (by positivity)
    have h3 : (pyRound (q * 3600)).fdiv 3600
        = (((pyRound (q * 3600)).toNat : ℕ) : ℤ).fdiv ((3600 : ℕ) : ℤ) := by
      rw [Int.toNat_of_nonneg h2]
      rfl
    rw [h3, fdiv_coe]
  · with_unfolding_all decide

/-- Witness for C9 at `q = 199/100` (`"01:59:24"`). -/
theorem encode_minute_second_ranges_witness :
    (0 : ℚ) ≤ 199/100 ∧ ∃ hh mm ss : ℕ,
      decimal_to_time_str (199/100) =
        (pad2 hh ++ ':' :: pad2 mm ++ ':' :: pad2 ss).asString ∧
      mm < 60 ∧ ss < 60 ∧
      (hh : ℤ) = (pyRound ((199/100) * 3600)).fdiv 3600 :=
  ⟨by with_unfolding_all decide,
   encode_minute_second_ranges.1 (199/100) (by with_unfolding_all decide)⟩

/-- C4: codec round trip.  For a non-negative number of hours representable
in whole seconds, decoding the encoding differs from the input by at most
one second (it is in fact exact); for a well-formed zero-padded `HH:MM:SS`
string, encoding the decoding reproduces the string. -/
theorem codec_round_trip :
    (∀ v : ℚ, 0 ≤ v → (∃ n : ℕ, v * 3600 = (n : ℚ)) →
      |time_str_to_decimal (some (decimal_to_time_str v)) - v| ≤ 1/3600)
  ∧ (∀ s : String, (∃ hh mm ss : ℕ, mm < 60 ∧ ss < 60 ∧
      s = (pad2 hh ++ ':' :: pad2 mm ++ ':' :: pad2 ss).asString) →
      decimal_to_time_str (time_str_to_decimal (some s)) = s) := by
  constructor
  · rintro v hv ⟨n, hn⟩
    have he := decimal_to_time_str_eq v hv
    have hT : pyRound (v * 3600) = (n : ℤ) := by rw [hn, pyRound_natCast]
    rw [hT, Int.toNat_natCast] at he
    rw [he, decode_three _ _ _ (colon_not_mem_pad2 _) (colon_not_mem_pad2 _)
      (colon_not_mem_pad2 _) _ _ _ (parsePyInt_pad2 _) (parsePyInt_pad2 _)
      (parsePyInt_pad2 _)]
    have hsplit : 3600 * (n / 3600) + 60 * (n % 3600 / 60) + n % 60 = n := by
      omega
    have hcast : ((3600 : ℚ)) * ((n / 3600 : ℕ) : ℚ)
        + 60 * ((n % 3600 / 60 : ℕ) : ℚ) + ((n % 60 : ℕ) : ℚ) = (n : ℚ) := by
      exact_mod_cast congrArg (Nat.cast (R := ℚ)) hsplit
    have hv36 : v = (n : ℚ) / 3600 := by
      field_simp at hn ⊢
      linarith [hn]
    have hval : (((n / 3600 : ℕ) : ℤ) : ℚ)
        + (((n % 3600 / 60 : ℕ) : ℤ) : ℚ) / 60
        + (((n % 60 : ℕ) : ℤ) : ℚ) / 3600 = v := by
      rw [Int.cast_natCast, Int.cast_natCast, Int.cast_natCast, hv36,
        eq_div_iff (by norm_num : ((3600 : ℚ)) ≠ 0)]
      ring_nf
      ring_nf at hcast
      linarith [hcast]
    rw [hval]
    simp
  · rintro s ⟨hh, mm, ss, hm60, hs60, rfl⟩
    rw [decode_three _ _ _ (colon_not_mem_pad2 _) (colon_not_mem_pad2 _)
      (colon_not_mem_pad2 _) _ _ _ (parsePyInt_pad2 _) (parsePyInt_pad2 _)
      (parsePyInt_pad2 _)]
    have hval : (((hh : ℕ) : ℤ) : ℚ) + (((mm : ℕ) : ℤ) : ℚ) / 60
        + (((ss : ℕ) : ℤ) : ℚ) / 3600
        = ((3600 * hh + 60 * mm + ss : ℕ) : ℚ) / 3600 := by
      rw [Int.cast_natCast, Int.cast_natCast, Int.cast_natCast,
        eq_div_iff (by norm_num : ((3600 : ℚ)) ≠ 0)]
      push_cast
      ring
    rw [hval]
    have he := decimal_to_time_str_eq ((( 3600 * hh + 60 * mm + ss : ℕ) : ℚ) / 3600)
      (by positivity)
    have hmul : (((3600 * hh + 60 * mm + ss : ℕ) : ℚ) / 3600) * 3600
        = ((3600 * hh + 60 * mm + ss : ℕ) : ℚ) := by field_simp
    rw [hmul, pyRound_natCast, Int.toNat_natCast] at he
    rw [he, show (3600 * hh + 60 * mm + ss) / 3600 = hh by omega,
      show (3600 * hh + 60 * mm + ss) % 3600 / 60 = mm by omega,
      show (3600 * hh + 60 * mm + ss) % 60 = ss by omega]

/-- Witness for C4: `v = 3/2` (5400 seconds) and `s = "01:59:30"`. -/
theorem codec_round_trip_witness :
    ((0 : ℚ) ≤ 3/2 ∧ (3/2 : ℚ) * 3600 = ((5400 : ℕ) : ℚ) ∧
      |time_str_to_decimal (some (decimal_to_time_str (3/2))) - 3/2| ≤ 1/3600)
  ∧ ((59 : ℕ) < 60 ∧ (30 : ℕ) < 60 ∧
      "01:59:30" = (pad2 1 ++ ':' :: pad2 59 ++ ':' :: pad2 30).asString ∧
      decimal_to_time_str (time_str_to_decimal (some "01:59:30")) = "01:59:30") :=
  ⟨⟨by norm_num, by norm_num,
    codec_round_trip.1 (3/2) (by norm_num) ⟨5400, by norm_num⟩⟩,
   ⟨by decide, by decide, by decide,
    codec_round_trip.2 "01:59:30"
      ⟨1, 59, 30, by decide, by decide, by decide⟩⟩⟩

/-! ### Grouping lemmas -/

theorem mem_uniqueAux_not_seen [DecidableEq α] :
    ∀ (l seen : List α) (a : α), a ∈ uniqueAux l seen → a ∉ seen := by
  intro l
  induction l with
  | nil => intro seen a h; simp [uniqueAux] at h
  | cons x xs ih =>
    intro seen a h
    rw [uniqueAux] at h
    by_cases hx : x ∈ seen
    · rw [if_pos hx] at h
      exact ih seen a h
    · rw [if_neg hx] at h
      rcases List.mem_cons.1 h with rfl | h2
      · exact hx
      · intro hs
        exact ih (x :: seen) a h2 (List.mem_cons_of_mem x hs)

theorem sum_map_filter_add (f : α → ℚ) (p : α → Bool) : ∀ l : List α,
    ((l.filter p).map f).sum + ((l.filter (fun x => !(p x))).map f).sum
      = (l.map f).sum := by
  intro l
  induction l with
  | nil => simp
  | cons x xs ih =>
    by_cases h : p x = true
    · rw [List.filter_cons_of_pos h, List.filter_cons_of_neg (by simp [h])]
      simp only [List.map_cons, List.sum_cons]
      linarith [ih]
    · rw [List.filter_cons_of_neg h, List.filter_cons_of_pos (by simpa using h)]
      simp only [List.map_cons, List.sum_cons]
      linarith [ih]

/-- Summing a quantity per first-seen group (keys in `seen` excluded) and
then over the groups equals summing it over all entries not keyed in
`seen`: first-seen grouping partitions the list. -/
theorem sum_over_groups [DecidableEq κ] (key : α → κ) (f : α → ℚ) :
    ∀ (l : List α) (seen : List κ),
      ((uniqueAux (l.map key) seen).map
        (fun k => ((l.filter (fun x => key x = k)).map f).sum)).sum
      = ((l.filter (fun x => key x ∉ seen)).map f).sum := by
  intro l
  induction l with
  | nil => intro seen; simp [uniqueAux]
  | cons a t ih =>
    intro seen
    rw [List.map_cons, uniqueAux]
    by_cases hka : key a ∈ seen
    · rw [if_pos hka]
      have hmap : (uniqueAux (t.map key) seen).map
            (fun k => (((a :: t).filter (fun x => key x = k)).map f).sum)
          = (uniqueAux (t.map key) seen).map
            (fun k => ((t.filter (fun x => key x = k)).map f).sum) := by
        apply List.map_congr_left
        intro k hk
        have hne : ¬(key a = k) := fun e =>
          mem_uniqueAux_not_seen _ _ _ hk (e ▸ hka)
        rw [List.filter_cons_of_neg (by simpa using hne)]
      rw [hmap, ih seen, List.filter_cons_of_neg (by simpa using hka)]
    · rw [if_neg hka, List.map_cons, List.sum_cons]
      rw [List.filter_cons_of_pos (by simp)]
      have hmap : (uniqueAux (t.map key) (key a :: seen)).map
            (fun k => (((a :: t).filter (fun x => key x = k)).map f).sum)
          = (uniqueAux (t.map key) (key a :: seen)).map
            (fun k => ((t.filter (fun x => key x = k)).map f).sum) := by
        apply List.map_congr_left
        intro k hk
        have hne : ¬(key a = k) := fun e =>
          mem_uniqueAux_not_seen _ _ _ hk (e ▸ List.mem_cons_self _ _)
        rw [List.filter_cons_of_neg (by simpa using hne)]
      rw [hmap, ih (key a :: seen),
        List.filter_cons_of_pos (by simpa using hka)]
      simp only [List.map_cons, List.sum_cons]
      have hsplit := sum_map_filter_add f (fun x => decide (key x = key a))
        (t.filter (fun x => key x ∉ seen))
      rw [List.filter_filter, List.filter_filter] at hsplit
      have e1 : t.filter
            (fun x => decide (key x = key a) && decide (key x ∉ seen))
          = t.filter (fun x => key x = key a) := by
        apply List.filter_congr
        intro x hx
        by_cases hx2 : key x = key a
        · simp [hx2, hka]
        · simp [hx2]
      have e2 : t.filter
            (fun x => !decide (key x = key a) && decide (key x ∉ seen))
          = t.filter (fun x => key x ∉ key a :: seen) := by
        apply List.filter_congr
        intro x hx
        by_cases hx2 : key x = key a <;> by_cases hx3 : key x ∈ seen <;>
          simp [hx2, hx3]
      rw [e1, e2] at hsplit
      linarith [hsplit]

/-- Partition identity for first-seen grouping with nothing pre-seen. -/
theorem sum_over_groups_nil [DecidableEq κ] (key : α → κ) (f : α → ℚ)
    (l : List α) :
    ((uniqueFirstSeen (l.map key)).map
        (fun k => ((l.filter (fun x => key x = k)).map f).sum)).sum
      = (l.map f).sum := by
  rw [uniqueFirstSeen, sum_over_groups key f l []]
  have hl : l.filter (fun x => key x ∉ ([] : List κ)) = l := by
    apply List.filter_eq_self.2
    intro x hx
    simp
  rw [hl]

/-! ### Block-structure lemmas -/

theorem projHeadRow_timeDecimal (df : List Entry) (p : String) :
    (projHeadRow df p).timeDecimal
      = ((df.filter (fun e => e.project = p)).map
          (fun e => time_str_to_decimal e.duration)).sum := rfl

theorem projHeadRow_project_isSome (df : List Entry) (p : String) :
    (projHeadRow df p).project.isSome = true := by
  unfold projHeadRow
  cases (df.filter (fun e => e.project = p)).head?.bind (fun e => e.client) <;>
    rfl

theorem descBlock_project (pd : List Entry) (d : String) :
    (descBlock pd d).project = none := rfl

theorem descBlock_description (pd : List Entry) (d : String) :
    (descBlock pd d).description = some d := rfl

theorem descBlock_timeDecimal (pd : List Entry) (d : String) :
    (descBlock pd d).timeDecimal
      = ((pd.filter (fun e => e.description = d)).map
          (fun e => time_str_to_decimal e.duration)).sum := rfl

theorem projBlock_filter_isSome (df : List Entry) (p : String) :
    (projBlock df p).filter (fun r => r.project.isSome)
      = [projHeadRow df p] := by
  unfold projBlock
  rw [@List.filter_cons_of_pos _ (fun r => r.project.isSome)
    (projHeadRow df p) _ (projHeadRow_project_isSome df p)]
  have hnil : ((uniqueFirstSeen ((df.filter (fun e => e.project = p)).map
      (fun e => e.description))).map
      (descBlock (df.filter (fun e => e.project = p)))).filter
        (fun r => r.project.isSome) = [] := by
    rw [List.filter_eq_nil_iff]
    intro r hr
    rcases List.mem_map.1 hr with ⟨d, _, rfl⟩
    simp [descBlock_project]
  rw [hnil]

theorem flatten_map_singleton (g : α → β) : ∀ l : List α,
    (l.map (fun a => [g a])).flatten = l.map g := by
  intro l
  induction l with
  | nil => rfl
  | cons x xs ih => simp only [List.map_cons, List.flatten_cons, ih,
      List.singleton_append]

theorem filter_isSome_flatten (entries : List Entry) : ∀ ks : List String,
    ((ks.map (projBlock entries)).flatten.filter
      (fun r => r.project.isSome)) = ks.map (projHeadRow entries) := by
  intro ks
  induction ks with
  | nil => rfl
  | cons k ks ih =>
    rw [List.map_cons, List.flatten_cons, List.filter_append,
      projBlock_filter_isSome, ih, List.map_cons, List.singleton_append]

/-- The grand total over project-level rows equals the sum of every
entry's decoded duration. -/
theorem total_time_decimal_summary (entries : List Entry) :
    total_time_decimal (summaryRows entries)
      = (entries.map (fun e => time_str_to_decimal e.duration)).sum := by
  unfold total_time_decimal summaryRows
  rw [filter_isSome_flatten, List.map_map]
  exact sum_over_groups_nil (fun e => e.project)
    (fun e => time_str_to_decimal e.duration) entries

/-- C1: hierarchy-sum invariant of the aggregation.  The `Total` value is
summed from the `ProjectTotal` rows only; it equals the exact sum of all
decoded durations; each `ProjectTotal` row's decimal value equals the exact
sum of its nested `DescriptionTotal` values, which equals the exact sum of
its entries' decoded durations, and each `DescriptionTotal` value is the
exact sum over its `(project, description)` group; the empty dataset totals
`0`. -/
theorem summary_hierarchy_sums (entries : List Entry) :
    total_time_decimal (summaryRows entries)
        = (((summaryRows entries).filter (fun r => r.project.isSome)).map
            (fun r => r.timeDecimal)).sum
  ∧ total_time_decimal (summaryRows entries)
        = (entries.map (fun e => time_str_to_decimal e.duration)).sum
  ∧ (∀ p, p ∈ uniqueFirstSeen (entries.map (fun e => e.project)) →
      ∃ hd tl, projBlock entries p = hd :: tl ∧
        hd.timeDecimal = (tl.map (fun r => r.timeDecimal)).sum ∧
        hd.timeDecimal = ((entries.filter (fun e => e.project = p)).map
            (fun e => time_str_to_decimal e.duration)).sum ∧
        (∀ r ∈ tl, ∃ d, r.description = some d ∧
          r.timeDecimal = (((entries.filter (fun e => e.project = p)).filter
              (fun e => e.description = d)).map
            (fun e => time_str_to_decimal e.duration)).sum))
  ∧ total_time_decimal (summaryRows []) = 0 := by
  refine ⟨rfl, total_time_decimal_summary entries, ?_, rfl⟩
  intro p _
  refine ⟨projHeadRow entries p, _, rfl, ?_,
    projHeadRow_timeDecimal entries p, ?_⟩
  · rw [projHeadRow_timeDecimal, List.map_map]
    exact (sum_over_groups_nil (fun e => e.description)
      (fun e => time_str_to_decimal e.duration)
      (entries.filter (fun e => e.project = p))).symm
  · intro r hr
    rcases List.mem_map.1 hr with ⟨d, _, rfl⟩
    exact ⟨d, rfl, rfl⟩

/-- Witness for C1 on the dataset `[("P1", "d1", "01:30:00")]`. -/
theorem summary_hierarchy_sums_witness :
    "P1" ∈ uniqueFirstSeen
        (([⟨"P1", some "C1", "d1", "u", none, none, none, none, none,
            some "01:30:00"⟩] : List Entry).map (fun e => e.project))
  ∧ ∃ hd tl, projBlock [⟨"P1", some "C1", "d1", "u", none, none, none, none,
        none, some "01:30:00"⟩] "P1" = hd :: tl ∧
      hd.timeDecimal = (tl.map (fun r => r.timeDecimal)).sum ∧
      hd.timeDecimal = ((([⟨"P1", some "C1", "d1", "u", none, none, none,
            none, none, some "01:30:00"⟩] : List Entry).filter
          (fun e => e.project = "P1")).map
          (fun e => time_str_to_decimal e.duration)).sum ∧
      (∀ r ∈ tl, ∃ d, r.description = some d ∧
        r.timeDecimal = (((([⟨"P1", some "C1", "d1", "u", none, none, none,
              none, none, some "01:30:00"⟩] : List Entry).filter
            (fun e => e.project = "P1")).filter
            (fun e => e.description = d)).map
          (fun e => time_str_to_decimal e.duration)).sum) :=
  ⟨by decide,
   (summary_hierarchy_sums [⟨"P1", some "C1", "d1", "u", none, none, none,
      none, none, some "01:30:00"⟩]).2.2.1 "P1" (by decide)⟩

/-! ### First-seen order: spec-side characterisation -/

/-- Accumulating variant of the specification-side first-seen dedup:
`prev` is the list of all elements already passed (kept or not). -/
def firstSeenSpecAux [DecidableEq α] : List α → List α → List α
  | [], _ => []
  | x :: xs, prev =>
    if x ∈ prev then firstSeenSpecAux xs (prev ++ [x])
    else x :: firstSeenSpecAux xs (prev ++ [x])

/-- Specification-side description of first-seen order: keep exactly the
elements that do not occur among the earlier elements, in input order. -/
def firstSeenSpec [DecidableEq α] (l : List α) : List α := firstSeenSpecAux l []

theorem uniqueAux_eq_specAux [DecidableEq α] : ∀ (l seen prev : List α),
    (∀ a, a ∈ seen ↔ a ∈ prev) →
    uniqueAux l seen = firstSeenSpecAux l prev := by
  intro l
  induction l with
  | nil => intro seen prev _; rfl
  | cons x xs ih =>
    intro seen prev h
    rw [uniqueAux, firstSeenSpecAux]
    by_cases hx : x ∈ seen
    · rw [if_pos hx, if_pos ((h x).1 hx)]
      apply ih
      intro a
      constructor
      · intro ha
        exact List.mem_append_left _ ((h a).1 ha)
      · intro ha
        rcases List.mem_append.1 ha with ha | ha
        · exact (h a).2 ha
        · rw [List.mem_singleton] at ha
          subst ha
          exact hx
    · rw [if_neg hx, if_neg (fun c => hx ((h x).2 c))]
      congr 1
      apply ih
      intro a
      simp only [List.mem_cons, List.mem_append, List.not_mem_nil, or_false]
      constructor
      · rintro (rfl | ha)
        · right; rfl
        · left; exact (h a).1 ha
      · rintro (ha | rfl)
        · right; exact (h a).2 ha
        · left; rfl

/-- The code's accumulator-based grouping order refines the spec-side
first-seen order. -/
theorem uniqueFirstSeen_eq_spec [DecidableEq α] (l : List α) :
    uniqueFirstSeen l = firstSeenSpec l :=
  uniqueAux_eq_specAux l [] [] (fun _ => Iff.rfl)

/-- C5: ordering and shape of the aggregated output.  The output is the
flattening of one block per project in spec-side first-seen order; each
block is the `ProjectTotal` row followed by `DescriptionTotal` rows whose
descriptions are in first-seen order within that project's subset; and for
input projects `[B, A, B]` the output emits `B` before `A` — no
alphabetical reordering. -/
theorem summary_ordering_and_shape (entries : List Entry) :
    summaryRows entries
        = ((firstSeenSpec (entries.map (fun e => e.project))).map
            (projBlock entries)).flatten
  ∧ (∀ p, ∃ hd tl, projBlock entries p = hd :: tl ∧
      hd.project.isSome = true ∧
      (∀ r ∈ tl, r.project = none) ∧
      tl.map (fun r => r.description)
        = (firstSeenSpec ((entries.filter (fun e => e.project = p)).map
            (fun e => e.description))).map some)
  ∧ (summaryRows
        [⟨"B", none, "x", "u", none, none, none, none, none, some "1:00:00"⟩,
         ⟨"A", none, "y", "u", none, none, none, none, none, some "2:00:00"⟩,
         ⟨"B", none, "x", "u", none, none, none, none, none,
            some "0:30:00"⟩]).map
      (fun r => r.project)
      = [some "B", none, some "A", none] := by
  refine ⟨?_, ?_, ?_⟩
  · unfold summaryRows
    rw [uniqueFirstSeen_eq_spec]
  · intro p
    refine ⟨projHeadRow entries p, _, rfl,
      projHeadRow_project_isSome entries p, ?_, ?_⟩
    · intro r hr
      rcases List.mem_map.1 hr with ⟨d, _, rfl⟩
      rfl
    · rw [List.map_map, uniqueFirstSeen_eq_spec]
      exact List.map_congr_left (fun d _ => rfl)
  · with_unfolding_all decide

/-- Witness for C5: the per-project block shape at a concrete dataset. -/
theorem summary_ordering_and_shape_witness :
    ∃ hd tl, projBlock [⟨"B", none, "x", "u", none, none, none, none, none,
        some "1:00:00"⟩] "B" = hd :: tl ∧
      hd.project.isSome = true ∧
      (∀ r ∈ tl, r.project = none) ∧
      tl.map (fun r => r.description)
        = (firstSeenSpec ((([⟨"B", none, "x", "u", none, none, none, none,
            none, some "1:00:00"⟩] : List Entry).filter
            (fun e => e.project = "B")).map
            (fun e => e.description))).map some :=
  (summary_ordering_and_shape [⟨"B", none, "x", "u", none, none, none, none,
    none, some "1:00:00"⟩]).2.1 "B"

/-! ### Sheet-cell lemmas -/

/-- Number of summary rows that occupy a sheet row (project or description
label present). -/
def emitCount (sd : List SummaryRow) : ℕ :=
  (sd.filter (fun row => row.project.isSome || row.description.isSome)).length

theorem emitCount_cons_proj (p : String) (desc : Option String) (th : String)
    (td : ℚ) (rest : List SummaryRow) :
    emitCount (SummaryRow.mk (some p) desc th td :: rest)
      = emitCount rest + 1 := by
  simp [emitCount, List.filter_cons]

theorem emitCount_cons_desc (d th : String) (td : ℚ)
    (rest : List SummaryRow) :
    emitCount (SummaryRow.mk none (some d) th td :: rest)
      = emitCount rest + 1 := by
  simp [emitCount, List.filter_cons]

theorem emitCount_cons_none (th : String) (td : ℚ) (rest : List SummaryRow) :
    emitCount (SummaryRow.mk none none th td :: rest) = emitCount rest := by
  simp [emitCount, List.filter_cons]

theorem endRow_eq : ∀ (sd : List SummaryRow) (r : ℕ),
    endRow r sd = r + emitCount sd := by
  intro sd
  induction sd with
  | nil => intro r; simp [endRow, emitCount]
  | cons row rest ih =>
    intro r
    rcases row with ⟨proj, desc, th, td⟩
    cases proj with
    | some p =>
      rw [endRow]
      dsimp only
      rw [ih, emitCount_cons_proj]
      omega
    | none =>
      cases desc with
      | some d =>
        rw [endRow]
        dsimp only
        rw [ih, emitCount_cons_desc]
        omega
      | none =>
        rw [endRow]
        dsimp only
        rw [ih, emitCount_cons_none]

theorem summaryDataCells_filter5 (rate : ℚ) :
    ∀ (sd : List SummaryRow) (r : ℕ), 5 ≤ r →
    (summaryDataCells rate r sd).filter
        (fun c => decide (c.col = 5 ∧ 5 ≤ c.row))
      = (List.range' r (emitCount sd)).map
          (fun i => Cell.mk i 5 (CellVal.formula
            (Formula.cellTimesLit 'D' i rate))) := by
  intro sd
  induction sd with
  | nil => intro r _; rfl
  | cons row rest ih =>
    intro r hr
    rcases row with ⟨proj, desc, th, td⟩
    cases proj with
    | some p =>
      rw [summaryDataCells, emitCount_cons_proj, List.range'_succ,
        List.map_cons]
      simp only [List.filter_cons, decide_eq_true_eq, true_and]
      rw [if_neg (by omega : ¬((1 : ℕ) = 5 ∧ 5 ≤ r)),
        if_neg (by omega : ¬((3 : ℕ) = 5 ∧ 5 ≤ r)),
        if_neg (by omega : ¬((4 : ℕ) = 5 ∧ 5 ≤ r)), if_pos hr,
        ih (r + 1) (by omega)]
    | none =>
      cases desc with
      | some d =>
        rw [summaryDataCells, emitCount_cons_desc, List.range'_succ,
          List.map_cons]
        simp only [List.filter_cons, decide_eq_true_eq, true_and]
        rw [if_neg (by omega : ¬((2 : ℕ) = 5 ∧ 5 ≤ r)),
          if_neg (by omega : ¬((3 : ℕ) = 5 ∧ 5 ≤ r)),
          if_neg (by omega : ¬((4 : ℕ) = 5 ∧ 5 ≤ r)), if_pos hr,
          ih (r + 1) (by omega)]
      | none =>
        rw [summaryDataCells, emitCount_cons_none, ih r hr]

theorem detailedRowCells_filter12 (rate : ℚ) (r : ℕ) (e : Entry)
    (hr : 4 ≤ r) :
    (detailedRowCells rate r e).filter
        (fun c => decide (c.col = 12 ∧ 4 ≤ c.row))
      = [Cell.mk r 12 (CellVal.num rate)] := by
  rcases e with ⟨p, cl, d, u, tg, sd, st, ed, et, du⟩
  cases tg <;> cases sd <;> cases ed <;>
    simp [detailedRowCells, List.filter_cons, hr]

theorem detailedRowCells_filter13 (rate : ℚ) (r : ℕ) (e : Entry)
    (hr : 4 ≤ r) :
    (detailedRowCells rate r e).filter
        (fun c => decide (c.col = 13 ∧ 4 ≤ c.row))
      = [Cell.mk r 13 (CellVal.formula
          (Formula.cellTimesCell 'L' r 'K' r))] := by
  rcases e with ⟨p, cl, d, u, tg, sd, st, ed, et, du⟩
  cases tg <;> cases sd <;> cases ed <;>
    simp [detailedRowCells, List.filter_cons, hr]

theorem detailedRowCells_filter5 (rate : ℚ) (r : ℕ) (e : Entry)
    (hr : 4 ≤ r) :
    (detailedRowCells rate r e).filter
        (fun c => decide (c.col = 5 ∧ 4 ≤ c.row))
      = (e.tags.map
          (fun t => Cell.mk r 5 (CellVal.str (firstTag t)))).toList := by
  rcases e with ⟨p, cl, d, u, tg, sd, st, ed, et, du⟩
  cases tg <;> cases sd <;> cases ed <;>
    simp [detailedRowCells, List.filter_cons, hr]

theorem detailedDataCells_filter12 (rate : ℚ) :
    ∀ (df : List Entry) (r : ℕ), 4 ≤ r →
    (detailedDataCells rate r df).filter
        (fun c => decide (c.col = 12 ∧ 4 ≤ c.row))
      = (List.range' r df.length).map
          (fun i => Cell.mk i 12 (CellVal.num rate)) := by
  intro df
  induction df with
  | nil => intro r _; rfl
  | cons e es ih =>
    intro r hr
    rw [detailedDataCells, List.filter_append,
      detailedRowCells_filter12 rate r e hr, ih (r + 1) (by omega),
      List.length_cons, List.range'_succ, List.map_cons,
      List.singleton_append]

theorem detailedDataCells_filter13 (rate : ℚ) :
    ∀ (df : List Entry) (r : ℕ), 4 ≤ r →
    (detailedDataCells rate r df).filter
        (fun c => decide (c.col = 13 ∧ 4 ≤ c.row))
      = (List.range' r df.length).map
          (fun i => Cell.mk i 13 (CellVal.formula
            (Formula.cellTimesCell 'L' i 'K' i))) := by
  intro df
  induction df with
  | nil => intro r _; rfl
  | cons e es ih =>
    intro r hr
    rw [detailedDataCells, List.filter_append,
      detailedRowCells_filter13 rate r e hr, ih (r + 1) (by omega),
      List.length_cons, List.range'_succ, List.map_cons,
      List.singleton_append]

theorem detailedDataCells_filter5 (rate : ℚ) :
    ∀ (df : List Entry) (r : ℕ), 4 ≤ r →
    (detailedDataCells rate r df).filter
        (fun c => decide (c.col = 5 ∧ 4 ≤ c.row))
      = (List.enumFrom r df).filterMap
          (fun ie => ie.2.tags.map
            (fun t => Cell.mk ie.1 5 (CellVal.str (firstTag t)))) := by
  intro df
  induction df with
  | nil => intro r _; rfl
  | cons e es ih =>
    intro r hr
    rw [detailedDataCells, List.filter_append,
      detailedRowCells_filter5 rate r e hr, ih (r + 1) (by omega),
      List.enumFrom_cons, List.filterMap_cons]
    cases ht : e.tags <;> simp [ht]

theorem filter_decide_and (m k : ℕ) (l : List Cell) :
    l.filter (fun c => decide (c.col = m) && decide (k ≤ c.row))
      = l.filter (fun c => decide (c.col = m ∧ k ≤ c.row)) := by
  apply List.filter_congr
  intro c _
  rw [Bool.decide_and]

theorem create_summary_sheet_filter5 (sd : List SummaryRow)
    (dr : Option (String × String)) (rate : ℚ) :
    (create_summary_sheet sd dr rate).filter
        (fun c => decide (c.col = 5 ∧ 5 ≤ c.row))
      = (List.range' 5 (emitCount sd + 1)).map
          (fun i => Cell.mk i 5 (CellVal.formula
            (Formula.cellTimesLit 'D' i rate))) := by
  rw [create_summary_sheet]
  have hR : endRow 5 sd = 5 + emitCount sd := endRow_eq sd 5
  rw [hR]
  have h5 : (5 : ℕ) ≤ 5 + emitCount sd := by omega
  simp [List.filter_cons, h5, List.range'_1_concat]
  rw [filter_decide_and, summaryDataCells_filter5 rate sd 5 (by omega)]

theorem create_detailed_sheet_filter12 (df : List Entry) (rate : ℚ) :
    (create_detailed_sheet df rate).filter
        (fun c => decide (c.col = 12 ∧ 4 ≤ c.row))
      = (List.range' 4 df.length).map
          (fun i => Cell.mk i 12 (CellVal.num rate)) := by
  rw [create_detailed_sheet]
  simp [List.filter_cons]
  rw [filter_decide_and, detailedDataCells_filter12 rate df 4 (by omega)]

theorem create_detailed_sheet_filter13 (df : List Entry) (rate : ℚ) :
    (create_detailed_sheet df rate).filter
        (fun c => decide (c.col = 13 ∧ 4 ≤ c.row))
      = (List.range' 4 df.length).map
          (fun i => Cell.mk i 13 (CellVal.formula
            (Formula.cellTimesCell 'L' i 'K' i))) := by
  rw [create_detailed_sheet]
  simp [List.filter_cons]
  rw [filter_decide_and, detailedDataCells_filter13 rate df 4 (by omega)]

/-- C7: every Amount cell is a formula, never a stored number.  In the
Summary sheet the column-5 cell of every emitted row — project,
description and the trailing Total row — is `=D<row>*<rate>`; in the
Detailed sheet column 12 of every data row holds the literal rate and
column 13 holds `=L<row>*K<row>`. -/
theorem amount_cells_are_formulas :
    (∀ (sd : List SummaryRow) (dr : Option (String × String)) (rate : ℚ),
      (create_summary_sheet sd dr rate).filter
          (fun c => decide (c.col = 5 ∧ 5 ≤ c.row))
        = (List.range' 5 (emitCount sd + 1)).map
            (fun i => Cell.mk i 5 (CellVal.formula
              (Formula.cellTimesLit 'D' i rate))))
  ∧ (∀ (df : List Entry) (rate : ℚ),
      (create_detailed_sheet df rate).filter
          (fun c => decide (c.col = 12 ∧ 4 ≤ c.row))
        = (List.range' 4 df.length).map
            (fun i => Cell.mk i 12 (CellVal.num rate)))
  ∧ (∀ (df : List Entry) (rate : ℚ),
      (create_detailed_sheet df rate).filter
          (fun c => decide (c.col = 13 ∧ 4 ≤ c.row))
        = (List.range' 4 df.length).map
            (fun i => Cell.mk i 13 (CellVal.formula
              (Formula.cellTimesCell 'L' i 'K' i)))) :=
  ⟨create_summary_sheet_filter5, create_detailed_sheet_filter12,
   create_detailed_sheet_filter13⟩

/-! ### Tags lemmas -/

theorem data_append (s t : String) : (s ++ t).data = s.data ++ t.data := rfl

theorem firstTag_no_comma (t : String) (h : ',' ∉ t.data) :
    firstTag t = pyStrip t := by
  unfold firstTag
  rw [splitOnChar_not_mem ',' t.data h]
  rfl

theorem firstTag_append (a rest : String) (h : ',' ∉ a.data) :
    firstTag (a ++ "," ++ rest) = pyStrip a := by
  unfold firstTag
  have hd : (a ++ "," ++ rest).data = a.data ++ ',' :: rest.data := by
    rw [data_append, data_append]
    simp [List.append_assoc]
  rw [hd, splitOnChar_append ',' rest.data a.data h]
  rfl

theorem create_detailed_sheet_filterTags (df : List Entry) (rate : ℚ) :
    (create_detailed_sheet df rate).filter
        (fun c => decide (c.col = 5 ∧ 4 ≤ c.row))
      = (List.enumFrom 4 df).filterMap
          (fun ie => ie.2.tags.map
            (fun t => Cell.mk ie.1 5 (CellVal.str (firstTag t)))) := by
  rw [create_detailed_sheet]
  simp [List.filter_cons]
  rw [filter_decide_and, detailedDataCells_filter5 rate df 4 (by omega)]

/-- C8: in the Detailed sheet, the Tags cell (column 5) of a data row is
written only when the entry's Tags field is present, and then holds
exactly the first comma-separated tag, stripped of surrounding
whitespace; later tags never appear.  A single comma-free tag is shown
whole (stripped). -/
theorem tags_cell_first_tag_only :
    (∀ (df : List Entry) (rate : ℚ),
      (create_detailed_sheet df rate).filter
          (fun c => decide (c.col = 5 ∧ 4 ≤ c.row))
        = (List.enumFrom 4 df).filterMap
            (fun ie => ie.2.tags.map
              (fun t => Cell.mk ie.1 5 (CellVal.str (firstTag t)))))
  ∧ (∀ t : String, ',' ∉ t.data → firstTag t = pyStrip t)
  ∧ (∀ a rest : String, ',' ∉ a.data →
      firstTag (a ++ "," ++ rest) = pyStrip a) :=
  ⟨create_detailed_sheet_filterTags, firstTag_no_comma, firstTag_append⟩

/-- Witness for C8: the first of two comma-separated tags is shown. -/
theorem tags_cell_first_tag_only_witness :
    ',' ∉ "tag1".data ∧ firstTag ("tag1" ++ "," ++ " tag2") = pyStrip "tag1" :=
  ⟨by decide, tags_cell_first_tag_only.2.2 "tag1" " tag2" (by decide)⟩

/-! ### Column-presence behaviour of the summary builder -/

theorem uniqueAux_cons_nil [DecidableEq α] (x : α) (l : List α) :
    uniqueAux (x :: l) [] = x :: uniqueAux l [x] := by
  rw [uniqueAux, if_neg (List.not_mem_nil x)]

theorem mapM_ok (g : α → List SummaryRow) : ∀ l : List α,
    (l.mapM (fun a => (Except.ok (g a) : Except String (List SummaryRow))))
      = Except.ok (l.map g) := by
  intro l
  induction l with
  | nil => rfl
  | cons x xs ih =>
    rw [List.mapM_cons, ih]
    rfl

/-- With the full column contract present, the checked builder returns
exactly the pure aggregation result. -/
theorem build_summary_ok (df : DataFrame)
    (hp : "Project" ∈ df.cols) (hc : "Client" ∈ df.cols)
    (hd : "Duration (h)" ∈ df.cols) (hdesc : "Description" ∈ df.cols) :
    build_summary_from_detailed df = Except.ok (summaryRows df.rows) := by
  unfold build_summary_from_detailed
  rw [if_pos hp]
  have hfun : (fun p : String =>
      if "Client" ∈ df.cols then
        if "Duration (h)" ∈ df.cols then
          if "Description" ∈ df.cols then
            Except.ok (projBlock df.rows p)
          else Except.error "Description"
        else Except.error "Duration (h)"
      else Except.error "Client")
      = fun p => (Except.ok (projBlock df.rows p) :
          Except String (List SummaryRow)) := by
    funext p
    rw [if_pos hc, if_pos hd, if_pos hdesc]
  rw [hfun, mapM_ok (projBlock df.rows)]
  rfl

/-- C6 (amended): a missing required column surfaces as a pandas
`KeyError` carrying the column name at the first access — `Project` before
any iteration, the per-group columns (e.g. `Client`) only once at least
one row exists — aborting with no partial output; the report builder
itself performs no rate validation: `create_summary_sheet` is total and
emits the `=D<row>*<rate>` total formula for every rate, non-positive
rates included. -/
theorem missing_column_and_rate_behavior :
    (∀ df : DataFrame, "Project" ∉ df.cols →
      build_summary_from_detailed df = Except.error "Project")
  ∧ (∀ df : DataFrame, df.rows ≠ [] → "Project" ∈ df.cols →
      "Client" ∉ df.cols →
      build_summary_from_detailed df = Except.error "Client")
  ∧ (∀ (sd : List SummaryRow) (dr : Option (String × String)) (rate : ℚ),
      Cell.mk (endRow 5 sd) 5 (CellVal.formula
        (Formula.cellTimesLit 'D' (endRow 5 sd) rate))
        ∈ create_summary_sheet sd dr rate) := by
  refine ⟨?_, ?_, ?_⟩
  · intro df h
    unfold build_summary_from_detailed
    rw [if_neg h]
  · intro df hrows hp hc
    unfold build_summary_from_detailed
    rw [if_pos hp]
    obtain ⟨e, es, hre⟩ : ∃ e es, df.rows = e :: es := by
      cases h : df.rows with
      | nil => exact absurd h hrows
      | cons e es => exact ⟨e, es, rfl⟩
    rw [hre, List.map_cons]
    unfold uniqueFirstSeen
    rw [uniqueAux_cons_nil, List.mapM_cons, if_neg hc]
    rfl
  · intro sd dr rate
    unfold create_summary_sheet
    simp

/-- C6 counterexample to the claim as stated: a dataset missing the
required `Client` column but containing no rows is converted successfully
(the claim requires failure on any missing required column), and a
non-positive rate `-5` does not abort — the summary table is built and the
`=D5*-5` amount formula is emitted (the claim requires an
`InvalidRateError` before any table is built). -/
theorem missing_column_and_rate_counterexample :
    build_summary_from_detailed
        (DataFrame.mk ["Project", "Description", "Duration (h)"] [])
      = Except.ok []
  ∧ Cell.mk 5 5 (CellVal.formula (Formula.cellTimesLit 'D' 5 (-5)))
      ∈ create_summary_sheet [] none (-5) := by
  constructor
  · with_unfolding_all rfl
  · with_unfolding_all decide

/-- Witness for the amended C6 at a concrete dataframe. -/
theorem missing_column_and_rate_behavior_witness :
    "Project" ∉ (DataFrame.mk ["Description"] []).cols ∧
      build_summary_from_detailed (DataFrame.mk ["Description"] [])
        = Except.error "Project" :=
  ⟨by decide, missing_column_and_rate_behavior.1 _ (by decide)⟩

/-- Validation of the embedding against the specification's end-to-end
scenario: three entries (`P1/C1/d1` 01:30:00, `P1/C1/d2` 00:29:30,
`P2` (no client) `d1` 02:00:00) produce the five expected summary rows and a grand
total of `479/120` hours, encoded `"03:59:30"`. -/
theorem end_to_end_scenario :
    summaryRows
        [⟨"P1", some "C1", "d1", "u", none, none, none, none, none,
            some "01:30:00"⟩,
         ⟨"P1", some "C1", "d2", "u", none, none, none, none, none,
            some "00:29:30"⟩,
         ⟨"P2", none, "d1", "u", none, none, none, none, none,
            some "02:00:00"⟩]
      = [⟨some "P1 - C1", none, "01:59:30", 239/120⟩,
         ⟨none, some "d1", "01:30:00", 3/2⟩,
         ⟨none, some "d2", "00:29:30", 59/120⟩,
         ⟨some "P2", none, "02:00:00", 2⟩,
         ⟨none, some "d1", "02:00:00", 2⟩]
  ∧ total_time_decimal
        (summaryRows
          [⟨"P1", some "C1", "d1", "u", none, none, none, none, none,
              some "01:30:00"⟩,
           ⟨"P1", some "C1", "d2", "u", none, none, none, none, none,
              some "00:29:30"⟩,
           ⟨"P2", none, "d1", "u", none, none, none, none, none,
              some "02:00:00"⟩]) = 479/120
  ∧ decimal_to_time_str (479/120) = "03:59:30" := by
  refine ⟨?_, ?_, ?_⟩ <;> with_unfolding_all decide
